import Mathlib

/-!
Verification of the Kurohyou 1 PSP text-extraction tool.

Shallow embedding of the core routines of the repository:
byte buffers are `List Nat` (each entry one byte), Unicode text is a
`List Nat` of scalar values, textual cue lines are `List Char`.
Fractional quantities (frame averages, second conversions) are `ℚ`,
standing for the exact values of Python's true division.
-/

namespace Kurohyou

/-- Hiragana block U+3040..U+309F, as tested in the extraction sources. -/
def isHiragana (c : Nat) : Bool := 0x3040 ≤ c && c ≤ 0x309F

/-- Katakana block U+30A0..U+30FF, as tested in the extraction sources. -/
def isKatakana (c : Nat) : Bool := 0x30A0 ≤ c && c ≤ 0x30FF

/-- CJK Unified Ideographs range U+4E00..U+9FAF, as tested in the sources. -/
def isCJK (c : Nat) : Bool := 0x4E00 ≤ c && c ≤ 0x9FAF

/-- The script-range test used by every acceptance check in the sources:
Hiragana, Katakana or CJK Unified Ideographs. -/
def isJapaneseChar (c : Nat) : Bool := isHiragana c || isKatakana c || isCJK c

/-- Models Python `str.isspace` / the character class stripped by
`str.strip()`: ASCII whitespace and control separators plus the Unicode
space separators.  Every member is below U+3040, which is all the
development relies on. -/
def isspaceN (c : Nat) : Bool :=
  (9 ≤ c && c ≤ 13) || (28 ≤ c && c ≤ 31) || c == 32 || c == 133 || c == 160 ||
  c == 0x1680 || (0x2000 ≤ c && c ≤ 0x200A) || c == 0x2028 || c == 0x2029 ||
  c == 0x202F || c == 0x205F || c == 0x3000

/-- Models Python `str.isprintable` on the code points this development
evaluates: ASCII graphic characters and the space are printable, C0/C1
controls are not, and the CJK punctuation / kana / ideograph / fullwidth
ranges that occur in the game data are printable (U+3000, a space
separator, is not).  The scanner only consults this predicate on
characters outside the three Japanese script ranges. -/
def isprintableM (c : Nat) : Bool :=
  (32 ≤ c && c ≤ 126) || (0x3001 ≤ c && c ≤ 0x30FF) ||
  (0x4E00 ≤ c && c ≤ 0x9FFF) || (0xFF01 ≤ c && c ≤ 0xFF60)

/-- Strip whitespace from the front and the back of a scalar-value list;
models Python `str.strip()`. -/
def pyStripN (l : List Nat) : List Nat :=
  ((l.dropWhile isspaceN).reverse.dropWhile isspaceN).reverse

/-- The control-character cleaning of the scanners: keep a character when
it is printable or inside one of the three Japanese script ranges
(`kurohyou_csv_extractor.find_japanese_text_in_data` lines 114-118 and the
identical filter in `correct_utf16_extractor`). -/
def cleanChars (l : List Nat) : List Nat :=
  l.filter (fun c => isprintableM c || isJapaneseChar c)

/-- UTF-16 little-endian decoding of a byte list to Unicode scalar values.
`none` models Python raising `UnicodeDecodeError` (odd byte count or a
lone surrogate). -/
def utf16leDecode : List Nat → Option (List Nat)
  | [] => some []
  | [_] => none
  | b0 :: b1 :: rest =>
    let u := b0 + 256 * b1
    if 0xD800 ≤ u ∧ u ≤ 0xDBFF then
      match rest with
      | b2 :: b3 :: rest2 =>
        let u2 := b2 + 256 * b3
        if 0xDC00 ≤ u2 ∧ u2 ≤ 0xDFFF then
          (utf16leDecode rest2).map
            (fun cs => (0x10000 + (u - 0xD800) * 0x400 + (u2 - 0xDC00)) :: cs)
        else none
      | _ => none
    else if 0xDC00 ≤ u ∧ u ≤ 0xDFFF then none
    else (utf16leDecode rest).map (fun cs => u :: cs)

/-- UTF-16 little-endian encoding of a scalar-value list, used to state
the round-trip fixture: the inverse direction of `utf16leDecode`. -/
def encodeUtf16le : List Nat → List Nat
  | [] => []
  | c :: rest =>
    if c < 0x10000 then c % 256 :: c / 256 :: encodeUtf16le rest
    else
      let v := c - 0x10000
      let hi := 0xD800 + v / 0x400
      let lo := 0xDC00 + v % 0x400
      hi % 256 :: hi / 256 :: lo % 256 :: lo / 256 :: encodeUtf16le rest

/-- Remove trailing NUL scalars; models `str.rstrip(chr(0))`. -/
def rstripZero (l : List Nat) : List Nat :=
  (l.reverse.dropWhile (fun c => c == 0)).reverse

/-- `decode_utf16le_japanese` of `kurohyou_csv_extractor.py` lines 74-84
(and the identical copy in `correct_utf16_extractor.py`): decode the
bytes as UTF-16-LE and drop trailing NULs; any decode error yields the
empty string.  The source passes the bytes as a hex string; the embedding
works on the byte list directly (the hex form is an equivalent
representation of the same bytes). -/
def decode_utf16le_japanese (bs : List Nat) : List Nat :=
  match utf16leDecode bs with
  | none => []
  | some cs => rstripZero cs

/-- One recovered text: the scanned raw bytes (the source keeps them as an
uppercase hex string, an equivalent representation), the cleaned decoded
text, and the byte offset of the window.  Mirrors the
`(hex_string, clean_text, offset)` triples of both extractor modules. -/
structure Recovered where
  raw : List Nat
  text : List Nat
  offset : Nat
deriving DecidableEq, Repr

/-- The candidate window lengths of the sliding-window strategy
(`for length in [20, 40, 60, 80, 100, 150, 200]`). -/
def windowLengths : List Nat := [20, 40, 60, 80, 100, 150, 200]

/-- Acceptance test applied to one candidate byte window: the decode must
be nonempty, contain a Japanese-script character, and survive cleaning
and stripping with at least `minLen` characters.  `minLen` is 1 in
`kurohyou_csv_extractor.find_japanese_text_in_data` and 2 in
`correct_utf16_extractor.find_japanese_text_sequences`; the source writes
the nonemptiness of the strip and the length bound as two conjuncts. -/
def acceptWindow (minLen : Nat) (bs : List Nat) : Bool :=
  let decoded := decode_utf16le_japanese bs
  let cleaned := pyStripN (cleanChars decoded)
  !decoded.isEmpty && decoded.any isJapaneseChar &&
    !cleaned.isEmpty && minLen ≤ cleaned.length

/-- The `while i < len(data) - 3` scan of Strategy A, fuel-indexed: at
each position try the candidate lengths in order; on the first acceptable
window record the cleaned text and skip past the window, otherwise
advance by one 16-bit pair.  The fuel `data.length + 1` given by the
wrappers below dominates the iteration count since every step advances
`i` by at least 2. -/
def scanAAux (data : List Nat) (minLen : Nat) : Nat → Nat → List Recovered
  | 0, _ => []
  | fuel + 1, i =>
    if i < data.length - 3 then
      match windowLengths.find?
          (fun L => i + L ≤ data.length && acceptWindow minLen ((data.drop i).take L)) with
      | some L =>
        let w := (data.drop i).take L
        { raw := w, text := pyStripN (cleanChars (decode_utf16le_japanese w)), offset := i }
          :: scanAAux data minLen fuel (i + L)
      | none => scanAAux data minLen fuel (i + 2)
    else []

/-- `find_japanese_text_in_data` of `kurohyou_csv_extractor.py` lines
86-127: Strategy A with minimum accepted length 1. -/
def find_japanese_text_in_data (data : List Nat) : List Recovered :=
  scanAAux data 1 (data.length + 1) 0

/-- `find_japanese_text_sequences` of `correct_utf16_extractor.py` lines
27-72: the same scan with minimum accepted length 2. -/
def find_japanese_text_sequences (data : List Nat) : List Recovered :=
  scanAAux data 2 (data.length + 1) 0

/-- Models Python `bytes.find(tag, start)` by fuel recursion: the least
position `p ≥ start` at which `tag` occurs in `data`, or `none`
(Python's -1) when there is no such occurrence. -/
def findTagFromAux (data tag : List Nat) : Nat → Nat → Option Nat
  | 0, _ => none
  | fuel + 1, start =>
    if start + tag.length ≤ data.length then
      if (data.drop start).take tag.length = tag then some start
      else findTagFromAux data tag fuel (start + 1)
    else none

/-- `data.find(tag, start)` with sufficient fuel. -/
def findTagFrom (data tag : List Nat) (start : Nat) : Option Nat :=
  findTagFromAux data tag (data.length + 1 - start) start

/-- The repeated `find`-and-skip loops of the sources: collect occurrence
positions, restarting the search `skip` bytes after each hit
(`pos += 4` for `KSEQ`, `start = pos + 2` for the null terminator). -/
def tagPositionsAux (data tag : List Nat) (skip : Nat) : Nat → Nat → List Nat
  | 0, _ => []
  | fuel + 1, start =>
    match findTagFrom data tag start with
    | none => []
    | some p => p :: tagPositionsAux data tag skip fuel (p + skip)

/-- ASCII bytes of the dialogue-block tag `KSEQ`. -/
def kseqTag : List Nat := [75, 83, 69, 81]

/-- ASCII bytes of the root container tag `ELPK`. -/
def elpkTag : List Nat := [69, 76, 80, 75]

/-- The `KSEQ` occurrence scan of `analyze_pack_format.analyze_elpk_structure`
lines 109-116: every occurrence position in ascending order. -/
def kseqPositions (data : List Nat) : List Nat :=
  tagPositionsAux data kseqTag 4 (data.length + 1) 0

/-- The `00 00` terminator scan of
`correct_utf16_extractor.find_japanese_by_null_terminators` lines 84-91. -/
def nullPositions (data : List Nat) : List Nat :=
  tagPositionsAux data [0, 0] 2 (data.length + 1) 0

/-- Strategy B, `find_japanese_by_null_terminators` lines 93-118: for each
pair of consecutive terminator positions, the run strictly between them
(starting two bytes past the left terminator) is decoded and accepted
under the same test as Strategy A with minimum length 1, provided it is
longer than 4 bytes. -/
def find_japanese_by_null_terminators (data : List Nat) : List Recovered :=
  let ps := nullPositions data
  (ps.zip (ps.drop 1)).filterMap (fun pq =>
    let sp := pq.1 + 2
    let ep := pq.2
    if 4 < ep - sp then
      let w := (data.drop sp).take (ep - sp)
      if acceptWindow 1 w then
        some { raw := w, text := pyStripN (cleanChars (decode_utf16le_japanese w)),
               offset := sp }
      else none
    else none)

/-- The merge of `extract_japanese_from_pack_correct` line 147:
`all_texts = sequences + null_texts`, Strategy A results first. -/
def packMergedTexts (data : List Nat) : List Recovered :=
  find_japanese_text_sequences data ++ find_japanese_by_null_terminators data

/-- The deduplication loop of `extract_japanese_from_pack_correct` lines
148-155: walk the merged list in order, keeping an entry when its decoded
text is unseen and nonempty. -/
def dedupTexts : List Recovered → List (List Nat) → List Recovered
  | [], _ => []
  | e :: rest, seen =>
    if e.text ∉ seen ∧ 1 ≤ e.text.length then e :: dedupTexts rest (e.text :: seen)
    else dedupTexts rest seen

/-- `extract_japanese_from_pack_correct` of `correct_utf16_extractor.py`
(lines 146-156, the merge-and-deduplicate step; the surrounding I/O and
printing is presentation). -/
def extract_japanese_from_pack_correct (data : List Nat) : List Recovered :=
  dedupTexts (packMergedTexts data) []

/-- Section extents `(offset, size)` from the `KSEQ` positions, following
`analyze_elpk_structure` lines 128-134: each section runs to the next
occurrence, the final one to end-of-buffer. -/
def sectionsFrom : List Nat → Nat → List (Nat × Nat)
  | [], _ => []
  | [p], n => [(p, n - p)]
  | p :: q :: rest, n => (p, q - p) :: sectionsFrom (q :: rest) n

/-- The block list of the Container Structure Scanner. -/
def kseqSections (data : List Nat) : List (Nat × Nat) :=
  sectionsFrom (kseqPositions data) data.length

/-- ASCII letter test; the strings this is applied to only hold bytes in
32..126 (see `sectionLoop`), where Python `str.isalpha` is exactly this. -/
def isAsciiAlpha (c : Nat) : Bool := (65 ≤ c && c ≤ 90) || (97 ≤ c && c ≤ 122)

/-- Scalar values of the marker prefix `"[JAPONÉS_CODIFICADO] "` used by
`decode_special_japanese`. -/
def codedMarker : List Nat := "[JAPONÉS_CODIFICADO] ".data.map Char.toNat

/-- The letters `J U M Q V` whose presence flags specially-coded text in
`decode_special_japanese`. -/
def specialLetters : List Nat := [74, 85, 77, 81, 86]

/-- `decode_special_japanese` of `analyze_pack_format.py` lines 199-222:
text matching the special-coding pattern is returned with the marker
prefix; otherwise text of length ≥ 3 containing a letter is returned
as-is; anything else is rejected. -/
def decode_special_japanese (text : List Nat) : Option (List Nat) :=
  if ((48 ∈ text) ∧ 5 < text.length) ∨ specialLetters.any (fun c => text.contains c) then
    some (codedMarker ++ text)
  else if 3 ≤ text.length ∧ text.any isAsciiAlpha then some text
  else none

/-- Flush the accumulated ASCII run of `extract_japanese_from_section`:
when it reaches `minLen`, keep whatever `decode_special_japanese` makes
of it. -/
def flushSection (texts : List (List Nat)) (cur : List Nat) (minLen : Nat) :
    List (List Nat) :=
  if minLen ≤ cur.length then
    match decode_special_japanese cur with
    | some t => texts ++ [t]
    | none => texts
  else texts

/-- The byte loop of `extract_japanese_from_section` lines 166-196: NUL
flushes runs of length ≥ 3, printable ASCII accumulates, any other byte
flushes runs of length ≥ 2; a final run of length ≥ 3 is flushed at the
end. -/
def sectionLoop : List Nat → List (List Nat) → List Nat → List (List Nat)
  | [], texts, cur => flushSection texts cur 3
  | b :: rest, texts, cur =>
    if b = 0 then sectionLoop rest (flushSection texts cur 3) []
    else if 32 ≤ b ∧ b ≤ 126 then sectionLoop rest texts (cur ++ [b])
    else sectionLoop rest (flushSection texts cur 2) []

/-- `extract_japanese_from_section` of `analyze_pack_format.py`. -/
def extract_japanese_from_section (sectionData : List Nat) : List (List Nat) :=
  sectionLoop sectionData [] []

/-- The analysis record built by `analyze_elpk_structure` (its returned
dict): total size, diagnostic version bytes, the `KSEQ` section count and
extents, and the per-section extracted texts. -/
structure ElpkAnalysis where
  total_size : Nat
  version : List Nat
  kseq_sections : Nat
  sections : List (Nat × Nat)
  japanese_texts : List (List Nat)
deriving DecidableEq, Repr

/-- `analyze_elpk_structure` of `analyze_pack_format.py` lines 91-155:
fail (`None`, the missing-root-tag failure) unless the buffer starts with
`ELPK`; otherwise scan the `KSEQ` sections and extract their texts. -/
def analyze_elpk_structure (data : List Nat) : Option ElpkAnalysis :=
  if data.take 4 = elpkTag then
    some { total_size := data.length
           version := (data.drop 4).take 4
           kseq_sections := (kseqPositions data).length
           sections := kseqSections data
           japanese_texts :=
             ((kseqSections data).map
               (fun s => extract_japanese_from_section ((data.drop s.1).take s.2))).flatten }
  else none

/-- One output line of the PACK extraction path, mirroring the dict built
by `_extract_pack_data` (second definition, `kurohyou_csv_extractor.py`
lines 999-1006). -/
structure PackLine where
  line_id : Nat
  text : List Nat
  hex_data : List Nat
  offset : Nat
  length : Nat
  is_dialogue : Bool
deriving DecidableEq, Repr

/-- The post-scan processing of `_extract_pack_data` lines 996-1010:
enumerate the scanner results, keep those whose stripped text is
nonempty.  Note the function applies no root-tag check to the
decompressed buffer. -/
def extract_pack_data_lines (data : List Nat) : List PackLine :=
  (find_japanese_text_in_data data).enum.filterMap (fun p =>
    let t := pyStripN p.2.text
    if !t.isEmpty ∧ 1 ≤ t.length then
      some { line_id := p.1 + 1, text := t, hex_data := p.2.raw,
             offset := p.2.offset, length := t.length, is_dialogue := true }
    else none)

/-- One entry-table record as stored by `analyze_pepe_format.analyze_elpk_format`
lines 75-81 (`index`, `hash_id`, `offset`, `size`, `position`). -/
structure EntryRecord where
  index : Nat
  hash_id : Nat
  offset : Nat
  size : Nat
  position : Nat
deriving DecidableEq, Repr

/-- Little-endian u32 read at `pos`; callers establish `pos + 4 ≤ data.length`. -/
def u32At (data : List Nat) (pos : Nat) : Nat :=
  data.getD pos 0 + 256 * data.getD (pos + 1) 0 +
    65536 * data.getD (pos + 2) 0 + 16777216 * data.getD (pos + 3) 0

/-- The record loop of `analyze_elpk_format` lines 66-91: while `pos`
lies before the stop offset and fewer than 50 records have been taken,
unpack a 12-byte `(hash, offset, size)` record; a short read
(`struct.error`) or an implausible record ends the scan.  `budget` counts
the remaining allowance out of 50. -/
def entryLoop (data : List Nat) (stop : Nat) : Nat → Nat → Nat → List EntryRecord
  | _, _, 0 => []
  | pos, idx, budget + 1 =>
    if pos < stop then
      if pos + 12 ≤ data.length then
        let h := u32At data pos
        let o := u32At data (pos + 4)
        let s := u32At data (pos + 8)
        if 0 < o ∧ o < data.length ∧ 0 < s ∧ s < 10000 then
          { index := idx, hash_id := h, offset := o, size := s, position := pos }
            :: entryLoop data stop (pos + 12) (idx + 1) budget
        else []
      else []
    else []

/-- The entry-table part of `analyze_elpk_format` (`analyze_pepe_format.py`
lines 60-92): the stop offset is `data.find(b'KSEQ')`, which is Python's
-1 when the tag is absent, in which case `pos < kseq_pos` never holds and
no record is read. -/
def analyze_elpk_format_entries (data : List Nat) : List EntryRecord :=
  match findTagFrom data kseqTag 0 with
  | none => []
  | some k => entryLoop data k 20 0 50

/-- Modelled from the spec (§4.3): the same record loop but with the stop
offset defined as "the first dialogue-block tag offset, or end-of-buffer
if none".  Only used to exhibit how the code diverges from the claimed
stop rule when `KSEQ` is absent. -/
def entriesClaimStop (data : List Nat) : List EntryRecord :=
  let stop := match findTagFrom data kseqTag 0 with
    | none => data.length
    | some k => k
  entryLoop data stop 20 0 50

/-- Whitespace test on `Char`, reusing the scalar-value class. -/
def isspaceChar (c : Char) : Bool := isspaceN c.toNat

/-- Python `str.strip()` on a character list. -/
def pyStrip (s : List Char) : List Char :=
  ((s.dropWhile isspaceChar).reverse.dropWhile isspaceChar).reverse

/-- Digit-run parser for Python `int()`: digits with single underscores
allowed between digits (never leading, trailing or doubled). -/
def pyDigitsAux : Nat → List Char → Option Nat
  | acc, [] => some acc
  | acc, c :: rest =>
    if c.isDigit then pyDigitsAux (10 * acc + (c.toNat - 48)) rest
    else if c = '_' then
      match rest with
      | d :: rest2 =>
        if d.isDigit then pyDigitsAux (10 * acc + (d.toNat - 48)) rest2 else none
      | [] => none
    else none

/-- Nonempty digit run, first character a digit. -/
def pyDigits : List Char → Option Nat
  | [] => none
  | c :: rest => if c.isDigit then pyDigitsAux (c.toNat - 48) rest else none

/-- Models Python `int(s)` on ASCII-digit inputs: surrounding whitespace
stripped, one optional sign, then a digit run; anything else raises
`ValueError` (`none`). -/
def pyInt (s : List Char) : Option Int :=
  match pyStrip s with
  | '+' :: rest => (pyDigits rest).map Int.ofNat
  | '-' :: rest => (pyDigits rest).map (fun n => -(n : Int))
  | t => (pyDigits t).map Int.ofNat

/-- Split on the first two commas: Python `line.split(',', 2)`. -/
def splitAtComma : List Char → Option (List Char × List Char)
  | [] => none
  | c :: rest =>
    if c = ',' then some ([], rest)
    else (splitAtComma rest).map (fun pr => (c :: pr.1, pr.2))

/-- `line.split(',', 2)`: up to three parts. -/
def splitCommas2 (s : List Char) : List (List Char) :=
  match splitAtComma s with
  | none => [s]
  | some (a, r) =>
    match splitAtComma r with
    | none => [a, r]
    | some (b, r2) => [a, b, r2]

/-- One parsed cue line, the `line_data` dict of `_extract_csv_data`
(`kurohyou_csv_extractor.py` lines 863-870). -/
structure CueLine where
  line_id : Nat
  start_time : Int
  end_time : Int
  text : List Char
  duration : Int
  is_pause : Bool
deriving DecidableEq, Repr

/-- Parse one raw line as in the `_extract_csv_data` loop (lines 849-883):
strip, skip when empty, split on the first two commas, require three
parts with integer first fields; `duration` is `end - start` when both
differ from -1 and 0 otherwise, `is_pause` holds when both equal -1.
`none` is the `continue` of the source (empty line, too few parts, or
`ValueError`). -/
def parseCueLine (lineNum : Nat) (raw : List Char) : Option CueLine :=
  let line := pyStrip raw
  if line.isEmpty then none
  else
    match splitCommas2 line with
    | [a, b, t] =>
      match pyInt a, pyInt b with
      | some st, some en =>
        some { line_id := lineNum, start_time := st, end_time := en, text := t,
               duration := if st ≠ -1 ∧ en ≠ -1 then en - st else 0,
               is_pause := decide (st = -1) && decide (en = -1) }
      | _, _ => none
    | _ => none

/-- The cue list produced by `_extract_csv_data`: lines numbered from 1,
unparsable lines silently dropped. -/
def extractCsvLines (lines : List (List Char)) : List CueLine :=
  (lines.enumFrom 1).filterMap (fun p => parseCueLine p.1 p.2)

/-- Kurohyou runs at 30 frames per second (`KUROHYOU_FPS`). -/
def kurohyouFPS : ℚ := 30

/-- `frames_to_seconds` (`kurohyou_csv_extractor.py` lines 45-47): the
argument is ℚ because the source also passes the float average at line
895; on integers the guard and quotient agree with the Python ints. -/
def frames_to_seconds (frames : ℚ) : ℚ :=
  if 0 < frames then frames / kurohyouFPS else 0

/-- `frames_to_milliseconds` (lines 49-51). -/
def frames_to_milliseconds (frames : ℚ) : ℚ :=
  if 0 < frames then frames / kurohyouFPS * 1000 else 0

/-- The shape of the string built by `format_duration` (lines 53-63).
The numeric payloads are the exact values of the formatted quantities;
rendering them to decimal text is presentation and not modelled. -/
inductive DurationText
  | zeroFrames
  | framesWithMs (frames : ℚ) (ms : ℚ)
  | framesWithSeconds (frames : ℚ) (s : ℚ)
deriving DecidableEq, Repr

/-- `format_duration`: non-positive counts render the literal
`"0 frames"` (`zeroFrames`); otherwise the sub-second form carries the
millisecond value and the general form the second value. -/
def format_duration (frames : ℚ) : DurationText :=
  if frames ≤ 0 then DurationText.zeroFrames
  else
    let s := frames_to_seconds frames
    if s < 1 then DurationText.framesWithMs frames (frames_to_milliseconds frames)
    else DurationText.framesWithSeconds frames s

/-- The statistics dict of `_extract_csv_data` lines 885-896. -/
structure CueStatistics where
  total_lines : Nat
  dialogue_lines : Nat
  pause_lines : Nat
  total_chars : Nat
  avg_chars : ℚ
  total_duration_frames : Int
  avg_duration_frames : ℚ
  total_duration_seconds : ℚ
  avg_duration_seconds : ℚ
deriving DecidableEq, Repr

/-- Aggregate statistics over a parsed cue list.  The source accumulates
the counters inside the parse loop (lines 874-879): characters and
durations are summed over non-pause lines only; every ratio is guarded by
`dialogue_lines > 0` with 0 otherwise. -/
def csvStats (cues : List CueLine) : CueStatistics :=
  let dialogue := cues.filter (fun c => !c.is_pause)
  let total_chars := (dialogue.map (fun c => c.text.length)).sum
  let total_duration : Int := (dialogue.map CueLine.duration).sum
  { total_lines := cues.length
    dialogue_lines := dialogue.length
    pause_lines := (cues.filter (fun c => c.is_pause)).length
    total_chars := total_chars
    avg_chars := if 0 < dialogue.length then (total_chars : ℚ) / dialogue.length else 0
    total_duration_frames := total_duration
    avg_duration_frames :=
      if 0 < dialogue.length then (total_duration : ℚ) / dialogue.length else 0
    total_duration_seconds := frames_to_seconds total_duration
    avg_duration_seconds :=
      if 0 < dialogue.length then frames_to_seconds ((total_duration : ℚ) / dialogue.length)
      else 0 }

/-! ### Concrete fixtures -/

/-- The known Japanese string of the round-trip fixture:
`マジでヤル気なのかよ` (the first dialogue line of the sample CSV), ten
BMP scalars, hence a 20-byte UTF-16-LE image that fills the smallest
candidate window exactly. -/
def rtFixture : List Nat :=
  [0x30DE, 0x30B8, 0x3067, 0x30E4, 0x30EB, 0x6C17, 0x306A, 0x306E, 0x304B, 0x3088]

/-- The UTF-16-LE byte image of `rtFixture`. -/
def rtBytes : List Nat := encodeUtf16le rtFixture

/-- Buffer exhibiting the merge-order/offset-order divergence of the
deduplication: the text `あいう` sits between NUL terminators at offset 2
(found by Strategy B only — every window of length ≥ 20 that covers it
also covers a lone-surrogate region and fails to decode) and again at
offset 30 where Strategy A finds it first in merge order. -/
def cexBuf : List Nat :=
  [0, 0, 0x42, 0x30, 0x44, 0x30, 0x46, 0x30, 0, 0] ++
    (List.replicate 10 [0, 0xD8]).flatten ++
    [0x42, 0x30, 0x44, 0x30, 0x46, 0x30] ++
    (List.replicate 7 [1, 0]).flatten

/-- Buffer with no `KSEQ` occurrence but a plausible 12-byte record at
position 20 (hash 1, offset 24, size 4). -/
def cexEntryBuf : List Nat :=
  List.replicate 20 0 ++ [1, 0, 0, 0, 24, 0, 0, 0, 4, 0, 0, 0]

/-- `cexEntryBuf` followed by a `KSEQ` tag, so the entry loop runs. -/
def entWitBuf : List Nat := cexEntryBuf ++ kseqTag

/-- A tiny `ELPK` container with one `KSEQ` block at offset 8. -/
def buf7 : List Nat := elpkTag ++ [0, 0, 0, 0] ++ kseqTag ++ [1, 2]

/-! ### Japanese-character preservation (claim C6) -/

theorem any_jap_of_clean {l : List Nat} (h : l.any isJapaneseChar = true) :
    (cleanChars l).any isJapaneseChar = true := by
  simp only [List.any_eq_true] at h ⊢
  obtain ⟨c, hc, hj⟩ := h
  exact ⟨c, List.mem_filter.2 ⟨hc, by simp [hj]⟩, hj⟩

theorem jap_not_space {c : Nat} (h : isJapaneseChar c = true) : isspaceN c = false := by
  rw [Bool.eq_false_iff]
  intro hs
  simp [isJapaneseChar, isHiragana, isKatakana, isCJK] at h
  simp [isspaceN] at hs
  omega

theorem any_jap_dropWhile {l : List Nat} (h : l.any isJapaneseChar = true) :
    (l.dropWhile isspaceN).any isJapaneseChar = true := by
  induction l with
  | nil => simp at h
  | cons c t ih =>
    rw [List.dropWhile_cons]
    by_cases hc : isspaceN c = true
    · rw [if_pos hc]
      apply ih
      simp only [List.any_cons, Bool.or_eq_true] at h
      rcases h with h | h
      · rw [jap_not_space h] at hc; exact absurd hc (by simp)
      · exact h
    · rw [if_neg hc]
      exact h

theorem any_jap_pyStrip {l : List Nat} (h : l.any isJapaneseChar = true) :
    (pyStripN l).any isJapaneseChar = true := by
  unfold pyStripN
  have h1 := any_jap_dropWhile h
  have h2 : (l.dropWhile isspaceN).reverse.any isJapaneseChar = true := by
    simpa only [List.any_eq_true, List.mem_reverse] using h1
  have h3 := any_jap_dropWhile h2
  simpa only [List.any_eq_true, List.mem_reverse] using h3

theorem acceptWindow_text_jap {minLen : Nat} {bs : List Nat}
    (h : acceptWindow minLen bs = true) :
    (pyStripN (cleanChars (decode_utf16le_japanese bs))).any isJapaneseChar = true := by
  unfold acceptWindow at h
  simp only [Bool.and_eq_true] at h
  exact any_jap_pyStrip (any_jap_of_clean h.1.1.2)

theorem scanAAux_mem_jap (data : List Nat) (minLen : Nat) :
    ∀ fuel i e, e ∈ scanAAux data minLen fuel i → e.text.any isJapaneseChar = true := by
  intro fuel
  induction fuel with
  | zero => intro i e he; simp [scanAAux] at he
  | succ n ih =>
    intro i e he
    rw [scanAAux] at he
    split at he
    · split at he
      · rename_i L heq
        rcases List.mem_cons.1 he with rfl | hm
        · have hp := List.find?_some heq
          simp only [Bool.and_eq_true] at hp
          exact acceptWindow_text_jap hp.2
        · exact ih _ _ hm
      · exact ih _ _ he
    · simp at he

/-- C6: every `RecoveredText` accepted by the Text Recovery Engine — the
sliding-window strategy in either of its source variants, or the
null-delimited strategy — has a decoded (trimmed) text containing at
least one Hiragana, Katakana or CJK Unified Ideograph scalar. -/
theorem C6_accepted_text_contains_japanese (data : List Nat) :
    (∀ e ∈ find_japanese_text_in_data data, e.text.any isJapaneseChar = true) ∧
    (∀ e ∈ find_japanese_text_sequences data, e.text.any isJapaneseChar = true) ∧
    (∀ e ∈ find_japanese_by_null_terminators data, e.text.any isJapaneseChar = true) := by
  refine ⟨fun e he => scanAAux_mem_jap data 1 _ _ e he,
    fun e he => scanAAux_mem_jap data 2 _ _ e he, ?_⟩
  intro e he
  unfold find_japanese_by_null_terminators at he
  rcases List.mem_filterMap.1 he with ⟨pq, _, hpq⟩
  dsimp only at hpq
  split at hpq
  · split at hpq
    · rename_i hacc
      rcases Option.some.inj hpq with rfl
      exact acceptWindow_text_jap hacc
    · exact absurd hpq (by simp)
  · exact absurd hpq (by simp)

/-- Witness for C6 at the round-trip fixture buffer. -/
theorem C6_accepted_text_contains_japanese_witness :
    (Recovered.mk rtBytes rtFixture 0).text.any isJapaneseChar = true :=
  (C6_accepted_text_contains_japanese rtBytes).1 _ (by decide)

/-! ### Round trip (claim C4) -/

/-- C4: encoding the known Japanese string `マジでヤル気なのかよ` to
UTF-16-LE and running Strategy A on the bytes recovers exactly that
string at offset 0; and the byte pair `8D 9F` decodes under little-endian
16-bit interpretation to the single Kanji scalar U+9F8D, which lies in
the CJK Unified Ideographs range. -/
theorem C4_round_trip :
    find_japanese_text_in_data rtBytes = [Recovered.mk rtBytes rtFixture 0] ∧
    decode_utf16le_japanese [0x8D, 0x9F] = [0x9F8D] ∧
    isCJK 0x9F8D = true := by decide

/-! ### Cue normalization examples (claim C8) -/

/-- C8: the line `"542,596,マジでヤル気なのかよ？"` yields a cue with
startFrame 542, endFrame 596, duration 54 and isPause false; the line
`"-1,-1,……"` yields a pause cue with duration 0; the malformed line
`"abc,def,text"` is silently skipped and produces no cue. -/
theorem C8_cue_examples :
    extractCsvLines
        ["542,596,マジでヤル気なのかよ？".data, "-1,-1,……".data, "abc,def,text".data] =
      [CueLine.mk 1 542 596 "マジでヤル気なのかよ？".data 54 false,
       CueLine.mk 2 (-1) (-1) "……".data 0 true] := by decide

/-! ### Missing root tag (claim C1) -/

/-- C1 counterexample: a decompressed buffer that does not begin with
`ELPK` makes `analyze_elpk_structure` fail, but the PACK extraction path
of `_extract_pack_data` applies no root-tag check and still returns
recovered strings for it — contradicting the claim that the PACK
extraction path returns no recovered strings for such a buffer. -/
theorem C1_counterexample :
    rtBytes.take 4 ≠ elpkTag ∧
    analyze_elpk_structure rtBytes = none ∧
    extract_pack_data_lines rtBytes ≠ [] := by decide

/-- C1 (amended): for every buffer that does not begin with `ELPK`, the
structure analysis fails (`None`, the missing-root-tag failure) and
yields no section or text output; the PACK extraction path, however,
performs no root-tag check. -/
theorem C1_missing_root_tag (data : List Nat) (h : data.take 4 ≠ elpkTag) :
    analyze_elpk_structure data = none := by
  unfold analyze_elpk_structure
  simp [h]

/-- Witness for C1 at the fixture buffer. -/
theorem C1_missing_root_tag_witness :
    rtBytes.take 4 ≠ elpkTag ∧ analyze_elpk_structure rtBytes = none :=
  ⟨by decide, C1_missing_root_tag rtBytes (by decide)⟩

/-! ### Cue invariants (claim C3) -/

/-- C3 counterexample: the line `"100,50,x"` computes duration
`50 - 100 = -50 < 0` and the cue is kept in the output (neither rejected
nor clamped), with `is_pause = false` — contradicting the claim that a
line with negative computed duration is rejected. -/
theorem C3_counterexample :
    extractCsvLines ["100,50,x".data] = [CueLine.mk 1 100 50 "x".data (-50) false] := by
  decide

theorem parseCueLine_some {n : Nat} {raw : List Char} {c : CueLine}
    (h : parseCueLine n raw = some c) :
    (c.is_pause = true ↔ c.start_time = -1 ∧ c.end_time = -1) ∧
    c.duration =
      (if c.start_time ≠ -1 ∧ c.end_time ≠ -1 then c.end_time - c.start_time else 0) := by
  unfold parseCueLine at h
  dsimp only at h
  split at h
  · exact absurd h (by simp)
  · split at h
    · split at h
      · rcases Option.some.inj h with rfl
        constructor
        · simp
        · rfl
      · exact absurd h (by simp)
    · exact absurd h (by simp)

/-- C3 (amended): for every cue in the normalizer's output, `isPause`
holds iff both frames equal -1; `duration` equals `endFrame - startFrame`
when both frames differ from -1 and equals 0 otherwise — in particular a
negative difference is retained in the output, neither rejected nor
clamped. -/
theorem C3_pause_duration_invariant (lines : List (List Char)) :
    ∀ c ∈ extractCsvLines lines,
      (c.is_pause = true ↔ c.start_time = -1 ∧ c.end_time = -1) ∧
      c.duration =
        (if c.start_time ≠ -1 ∧ c.end_time ≠ -1 then c.end_time - c.start_time else 0) := by
  intro c hc
  unfold extractCsvLines at hc
  rcases List.mem_filterMap.1 hc with ⟨p, _, hp⟩
  exact parseCueLine_some hp

/-- Witness for C3 at a concrete accepted line. -/
theorem C3_pause_duration_invariant_witness :
    ((CueLine.mk 1 542 596 ['a'] 54 false).is_pause = true ↔
      (CueLine.mk 1 542 596 ['a'] 54 false).start_time = -1 ∧
        (CueLine.mk 1 542 596 ['a'] 54 false).end_time = -1) ∧
    (CueLine.mk 1 542 596 ['a'] 54 false).duration =
      (if (CueLine.mk 1 542 596 ['a'] 54 false).start_time ≠ -1 ∧
          (CueLine.mk 1 542 596 ['a'] 54 false).end_time ≠ -1 then
        (CueLine.mk 1 542 596 ['a'] 54 false).end_time -
          (CueLine.mk 1 542 596 ['a'] 54 false).start_time
      else 0) :=
  C3_pause_duration_invariant ["542,596,a".data] _ (by decide)

/-! ### Merge and deduplication (claim C2) -/

/-- C2 counterexample: on `cexBuf` the merged list contains the text
`あいう` at offset 2 (Strategy B), yet the deduplicated final set keeps
only the occurrence at offset 30 (Strategy A, which comes first in the
concatenation order) — contradicting the claim that the occurrence kept
is the first by ascending `sourceOffset`. -/
theorem C2_counterexample :
    (extract_japanese_from_pack_correct cexBuf).map Recovered.offset = [30] ∧
    Recovered.mk [0x42, 0x30, 0x44, 0x30, 0x46, 0x30] [0x3042, 0x3044, 0x3046] 2 ∈
      packMergedTexts cexBuf ∧
    (extract_japanese_from_pack_correct cexBuf).map Recovered.text =
      [[0x3042, 0x3044, 0x3046]] := by decide

theorem dedupTexts_sound :
    ∀ (xs : List Recovered) (seen : List (List Nat)) (e : Recovered),
      e ∈ dedupTexts xs seen →
      e.text ∉ seen ∧ e.text ≠ [] ∧
        xs.find? (fun x => decide (x.text = e.text)) = some e := by
  intro xs
  induction xs with
  | nil => intro seen e he; simp [dedupTexts] at he
  | cons x rest ih =>
    intro seen e he
    rw [dedupTexts] at he
    split at he
    · rename_i hcond
      rcases List.mem_cons.1 he with rfl | hm
      · refine ⟨hcond.1, ?_, ?_⟩
        · intro hnil
          have := hcond.2
          rw [hnil] at this
          simp at this
        · simp [List.find?_cons]
      · obtain ⟨hns, hne, hfind⟩ := ih _ _ hm
        have hxne : ¬ x.text = e.text := fun heq => hns (heq ▸ List.mem_cons_self _ _)
        refine ⟨fun hs => hns (List.mem_cons_of_mem _ hs), hne, ?_⟩
        rw [List.find?_cons_of_neg _ (by simpa using hxne)]
        exact hfind
    · rename_i hcond
      obtain ⟨hns, hne, hfind⟩ := ih _ _ he
      have hxne : ¬ x.text = e.text := by
        intro heq
        rcases not_and_or.1 hcond with h | h
        · exact hns (heq ▸ not_not.1 h)
        · exact hne (by rw [← heq]; exact List.eq_nil_of_length_eq_zero (by omega))
      refine ⟨hns, hne, ?_⟩
      rw [List.find?_cons_of_neg _ (by simpa using hxne)]
      exact hfind

theorem dedupTexts_cover :
    ∀ (xs : List Recovered) (seen : List (List Nat)) (x : Recovered),
      x ∈ xs → x.text ≠ [] →
      x.text ∈ seen ∨ ∃ e ∈ dedupTexts xs seen, e.text = x.text := by
  intro xs
  induction xs with
  | nil => intro seen x hx; simp at hx
  | cons y rest ih =>
    intro seen x hx hne
    rw [dedupTexts]
    rcases List.mem_cons.1 hx with rfl | hm
    · split
      · exact Or.inr ⟨x, List.mem_cons_self _ _, rfl⟩
      · rename_i hcond
        rcases not_and_or.1 hcond with h | h
        · exact Or.inl (not_not.1 h)
        · exact absurd (List.eq_nil_of_length_eq_zero (by omega)) hne
    · split
      · rcases ih (y.text :: seen) x hm hne with hs | ⟨e, he, het⟩
        · rcases List.mem_cons.1 hs with heq | hs2
          · exact Or.inr ⟨y, List.mem_cons_self _ _, heq.symm⟩
          · exact Or.inl hs2
        · exact Or.inr ⟨e, List.mem_cons_of_mem _ he, het⟩
      · exact ih seen x hm hne

theorem dedupTexts_pairwise :
    ∀ (xs : List Recovered) (seen : List (List Nat)),
      (dedupTexts xs seen).Pairwise (fun a b => a.text ≠ b.text) := by
  intro xs
  induction xs with
  | nil => intro seen; simp [dedupTexts]
  | cons x rest ih =>
    intro seen
    rw [dedupTexts]
    split
    · refine List.Pairwise.cons ?_ (ih _)
      intro b hb heq
      exact (dedupTexts_sound rest (x.text :: seen) b hb).1 (heq ▸ List.mem_cons_self _ _)
    · exact ih seen

/-- C2 (amended): deduplication by exact decoded-text equality keeps, for
every decoded text, exactly the first occurrence in the merged order —
all Strategy A results (in scan order) followed by all Strategy B results
— not the first by ascending `sourceOffset`; every distinct nonempty
decoded text of the merged list is represented exactly once, and no
empty decoded text appears in the final set. -/
theorem C2_dedup_first_in_merge_order (data : List Nat) :
    (extract_japanese_from_pack_correct data).Pairwise (fun a b => a.text ≠ b.text) ∧
    (∀ e ∈ extract_japanese_from_pack_correct data,
      e.text ≠ [] ∧
        (packMergedTexts data).find? (fun x => decide (x.text = e.text)) = some e) ∧
    (∀ x ∈ packMergedTexts data, x.text ≠ [] →
      ∃ e ∈ extract_japanese_from_pack_correct data, e.text = x.text) := by
  refine ⟨dedupTexts_pairwise _ _, ?_, ?_⟩
  · intro e he
    obtain ⟨_, hne, hfind⟩ := dedupTexts_sound _ _ _ he
    exact ⟨hne, hfind⟩
  · intro x hx hne
    rcases dedupTexts_cover _ [] x hx hne with h | h
    · simp at h
    · exact h

/-- Witness for C2 at the counterexample buffer: the kept entry is the
first of the merged list with its text. -/
theorem C2_dedup_first_in_merge_order_witness :
    (Recovered.mk [0x42, 0x30, 0x44, 0x30, 0x46, 0x30, 1, 0, 1, 0, 1, 0, 1, 0, 1, 0, 1, 0, 1, 0]
        [0x3042, 0x3044, 0x3046] 30).text ≠ [] ∧
    (packMergedTexts cexBuf).find?
        (fun x => decide (x.text =
          (Recovered.mk [0x42, 0x30, 0x44, 0x30, 0x46, 0x30, 1, 0, 1, 0, 1, 0, 1, 0, 1, 0, 1, 0, 1, 0]
            [0x3042, 0x3044, 0x3046] 30).text)) =
      some (Recovered.mk [0x42, 0x30, 0x44, 0x30, 0x46, 0x30, 1, 0, 1, 0, 1, 0, 1, 0, 1, 0, 1, 0, 1, 0]
        [0x3042, 0x3044, 0x3046] 30) :=
  (C2_dedup_first_in_merge_order cexBuf).2.1 _ (by decide)

/-! ### Entry table reader (claim C5) -/

/-- C5 counterexample: `cexEntryBuf` holds no `KSEQ` tag and a plausible
record at position 20.  The claimed stop rule ("end-of-buffer if there is
no KSEQ tag") would return that record (`entriesClaimStop`); the code's
stop offset is Python's `find` result -1, so the scan loop never runs and
no record is returned. -/
theorem C5_counterexample :
    findTagFrom cexEntryBuf kseqTag 0 = none ∧
    analyze_elpk_format_entries cexEntryBuf = [] ∧
    entriesClaimStop cexEntryBuf = [EntryRecord.mk 0 1 24 4 20] := by decide

theorem entryLoop_plausible (data : List Nat) (stop : Nat) :
    ∀ (budget pos idx : Nat) (e : EntryRecord), e ∈ entryLoop data stop pos idx budget →
      0 < e.offset ∧ e.offset < data.length ∧ 0 < e.size ∧ e.size < 10000 := by
  intro budget
  induction budget with
  | zero => intro pos idx e he; simp [entryLoop] at he
  | succ b ih =>
    intro pos idx e he
    rw [entryLoop] at he
    dsimp only at he
    split at he
    · split at he
      · split at he
        · rename_i hpl
          rcases List.mem_cons.1 he with rfl | hm
          · exact hpl
          · exact ih _ _ _ hm
        · simp at he
      · simp at he
    · simp at he

theorem entryLoop_length (data : List Nat) (stop : Nat) :
    ∀ (budget pos idx : Nat), (entryLoop data stop pos idx budget).length ≤ budget := by
  intro budget
  induction budget with
  | zero => intro pos idx; simp [entryLoop]
  | succ b ih =>
    intro pos idx
    rw [entryLoop]
    dsimp only
    split
    · split
      · split
        · simpa using ih (pos + 12) (idx + 1)
        · simp
      · simp
    · simp

/-- C5 (amended): every record returned by the Entry Table Reader
satisfies `0 < byteOffset < buffer length` and `0 < byteLength < 10000`;
at most 50 records are returned; a record failing plausibility (or a
short read) terminates the scan without being an error; and — unlike the
claimed stop rule — when the buffer holds no `KSEQ` tag the reader reads
no records at all, because the stop offset is `find`'s -1 rather than
end-of-buffer. -/
theorem C5_entry_reader (data : List Nat) :
    (∀ e ∈ analyze_elpk_format_entries data,
      0 < e.offset ∧ e.offset < data.length ∧ 0 < e.size ∧ e.size < 10000) ∧
    (analyze_elpk_format_entries data).length ≤ 50 ∧
    (findTagFrom data kseqTag 0 = none → analyze_elpk_format_entries data = []) := by
  unfold analyze_elpk_format_entries
  cases h : findTagFrom data kseqTag 0 with
  | none => simp
  | some k =>
    refine ⟨fun e he => entryLoop_plausible data k 50 20 0 e he,
      entryLoop_length data k 50 20 0, fun hc => absurd hc (by simp)⟩

/-- Witness for C5 at a buffer whose record loop accepts one record. -/
theorem C5_entry_reader_witness :
    0 < (EntryRecord.mk 0 1 24 4 20).offset ∧
    (EntryRecord.mk 0 1 24 4 20).offset < entWitBuf.length ∧
    0 < (EntryRecord.mk 0 1 24 4 20).size ∧ (EntryRecord.mk 0 1 24 4 20).size < 10000 :=
  (C5_entry_reader entWitBuf).1 _ (by decide)

/-! ### Guarded averages (claim C9) -/

/-- C9: in the computed statistics, the average duration is exactly
`totalDurationFrames / dialogueLineCount` when the count is positive and
exactly 0 when it is zero — a defined zero average, not an error — and
the same guarded-quotient rule holds for the average character count;
when the count is positive the average multiplied back by the count gives
the total. -/
theorem C9_guarded_averages (lines : List (List Char)) :
    (csvStats (extractCsvLines lines)).avg_duration_frames =
      (if 0 < (csvStats (extractCsvLines lines)).dialogue_lines then
        ((csvStats (extractCsvLines lines)).total_duration_frames : ℚ) /
          (csvStats (extractCsvLines lines)).dialogue_lines
      else 0) ∧
    (csvStats (extractCsvLines lines)).avg_chars =
      (if 0 < (csvStats (extractCsvLines lines)).dialogue_lines then
        ((csvStats (extractCsvLines lines)).total_chars : ℚ) /
          (csvStats (extractCsvLines lines)).dialogue_lines
      else 0) ∧
    (0 < (csvStats (extractCsvLines lines)).dialogue_lines →
      (csvStats (extractCsvLines lines)).avg_duration_frames *
          (csvStats (extractCsvLines lines)).dialogue_lines =
        ((csvStats (extractCsvLines lines)).total_duration_frames : ℚ)) := by
  refine ⟨rfl, rfl, ?_⟩
  intro hpos
  simp only [csvStats] at hpos ⊢
  rw [if_pos hpos]
  have hne : (((extractCsvLines lines).filter (fun c => !c.is_pause)).length : ℚ) ≠ 0 := by
    exact_mod_cast Nat.pos_iff_ne_zero.1 hpos
  field_simp

/-- Witness for C9 at a cue list with one dialogue line. -/
theorem C9_guarded_averages_witness :
    (csvStats (extractCsvLines ["0,54,ab".data])).avg_duration_frames *
        (csvStats (extractCsvLines ["0,54,ab".data])).dialogue_lines =
      ((csvStats (extractCsvLines ["0,54,ab".data])).total_duration_frames : ℚ) :=
  (C9_guarded_averages ["0,54,ab".data]).2.2 (by decide)

/-! ### Frame conversion clamps (claim C10) -/

/-- C10: the frame-to-time helpers clamp at zero — for every integer
frame count `n ≤ 0`, `frames_to_seconds` and `frames_to_milliseconds`
return 0 and `format_duration` renders the `"0 frames"` form — so
wall-clock conversions are never negative; for `n > 0` they return
`n / 30`, `n / 30 * 1000` and a formatted (non-zero) form. -/
theorem C10_frame_clamps (n : Int) :
    frames_to_seconds n = (if 0 < n then (n : ℚ) / 30 else 0) ∧
    frames_to_milliseconds n = (if 0 < n then (n : ℚ) / 30 * 1000 else 0) ∧
    (format_duration n = DurationText.zeroFrames ↔ n ≤ 0) ∧
    0 ≤ frames_to_seconds n ∧ 0 ≤ frames_to_milliseconds n := by
  have hcast : (0 : ℚ) < (n : ℚ) ↔ 0 < n := by exact_mod_cast Iff.rfl
  have hcast2 : (n : ℚ) ≤ 0 ↔ n ≤ 0 := by exact_mod_cast Iff.rfl
  by_cases h : 0 < n
  · have hq : (0 : ℚ) < (n : ℚ) := hcast.2 h
    have hq2 : ¬ (n : ℚ) ≤ 0 := not_le.2 hq
    refine ⟨by simp [frames_to_seconds, kurohyouFPS, hq, h], by
      simp [frames_to_milliseconds, kurohyouFPS, hq, h], ?_, ?_, ?_⟩
    · rw [format_duration, if_neg hq2]
      constructor
      · intro hform
        dsimp only at hform
        split at hform <;> exact absurd hform (by simp)
      · intro hle; exact absurd (hcast2.2 hle) hq2
    · rw [frames_to_seconds, if_pos hq]
      exact div_nonneg hq.le (by norm_num [kurohyouFPS])
    · rw [frames_to_milliseconds, if_pos hq]
      exact mul_nonneg (div_nonneg hq.le (by norm_num [kurohyouFPS])) (by norm_num)
  · have hq : ¬ (0 : ℚ) < (n : ℚ) := fun hc => h (hcast.1 hc)
    have hq2 : (n : ℚ) ≤ 0 := not_lt.1 hq
    refine ⟨by simp [frames_to_seconds, hq, h], by simp [frames_to_milliseconds, hq, h],
      ?_, ?_, ?_⟩
    · rw [format_duration, if_pos hq2]
      simp [hcast2.1 hq2]
    · rw [frames_to_seconds, if_neg hq]
    · rw [frames_to_milliseconds, if_neg hq]

/-! ### Container structure scanner (claim C7) -/

theorem matchAt_le_length {data tag : List Nat} {p : Nat}
    (h : (data.drop p).take tag.length = tag) (hne : tag ≠ []) : p + tag.length ≤ data.length := by
  have hl := congrArg List.length h
  simp only [List.length_take, List.length_drop] at hl
  have : 1 ≤ tag.length := by
    cases tag with
    | nil => exact absurd rfl hne
    | cons a t => simp
  omega

theorem matchAt_getElem {data tag : List Nat} {p : Nat}
    (h : (data.drop p).take tag.length = tag) (i : Nat) (hi : i < tag.length) :
    data[p + i]? = tag[i]? := by
  have h1 : ((data.drop p).take tag.length)[i]? = tag[i]? := by rw [h]
  rw [List.getElem?_take, if_pos hi, List.getElem?_drop] at h1
  exact h1

theorem findTagFromAux_some (data tag : List Nat) :
    ∀ fuel start p, findTagFromAux data tag fuel start = some p →
      start ≤ p ∧ (data.drop p).take tag.length = tag ∧
        ∀ q, start ≤ q → q < p → (data.drop q).take tag.length ≠ tag := by
  intro fuel
  induction fuel with
  | zero => intro start p h; simp [findTagFromAux] at h
  | succ n ih =>
    intro start p h
    rw [findTagFromAux] at h
    split at h
    · split at h
      · rename_i hb hm
        rcases Option.some.inj h with rfl
        exact ⟨le_refl _, hm, fun q hq1 hq2 _ => absurd hq2 (by omega)⟩
      · rename_i hb hm
        obtain ⟨h1, h2, h3⟩ := ih _ _ h
        refine ⟨by omega, h2, fun q hq1 hq2 => ?_⟩
        rcases eq_or_lt_of_le hq1 with rfl | hlt
        · exact hm
        · exact h3 q (by omega) hq2
    · exact absurd h (by simp)

theorem findTagFromAux_none (data tag : List Nat) (hne : tag ≠ []) :
    ∀ fuel start, data.length + 1 ≤ fuel + start →
      findTagFromAux data tag fuel start = none →
      ∀ q, start ≤ q → (data.drop q).take tag.length ≠ tag := by
  intro fuel
  induction fuel with
  | zero =>
    intro start hf _ q hq hmatch
    have hlen := matchAt_le_length hmatch hne
    have : 1 ≤ tag.length := by
      cases tag with
      | nil => exact absurd rfl hne
      | cons a t => simp
    omega
  | succ n ih =>
    intro start hf h q hq hmatch
    rw [findTagFromAux] at h
    split at h
    · split at h
      · exact absurd h (by simp)
      · rename_i hb hm
        rcases eq_or_lt_of_le hq with rfl | hlt
        · exact hm hmatch
        · exact ih (start + 1) (by omega) h q (by omega) hmatch
    · rename_i hb
      have hlen := matchAt_le_length hmatch hne
      omega

theorem findTagFrom_some {data tag : List Nat} {start p : Nat}
    (h : findTagFrom data tag start = some p) :
    start ≤ p ∧ (data.drop p).take tag.length = tag ∧
      ∀ q, start ≤ q → q < p → (data.drop q).take tag.length ≠ tag :=
  findTagFromAux_some data tag _ start p h

theorem findTagFrom_none {data tag : List Nat} (hne : tag ≠ []) {start : Nat}
    (hs : start ≤ data.length) (h : findTagFrom data tag start = none) :
    ∀ q, start ≤ q → (data.drop q).take tag.length ≠ tag :=
  findTagFromAux_none data tag hne _ start (by omega) h

theorem kseq_spacing {data : List Nat} {p q : Nat}
    (hp : (data.drop p).take kseqTag.length = kseqTag)
    (hq : (data.drop q).take kseqTag.length = kseqTag)
    (hpq : p < q) (hq4 : q < p + 4) : False := by
  have e0 : data[q]? = some 75 := by
    have h := matchAt_getElem hq 0 (by decide)
    simpa [kseqTag] using h
  have hd : q = p + 1 ∨ q = p + 2 ∨ q = p + 3 := by omega
  rcases hd with hd | hd | hd
  · have e1 : data[p + 1]? = some 83 := by
      have h := matchAt_getElem hp 1 (by decide)
      simpa [kseqTag] using h
    rw [hd, e1] at e0
    simp at e0
  · have e1 : data[p + 2]? = some 69 := by
      have h := matchAt_getElem hp 2 (by decide)
      simpa [kseqTag] using h
    rw [hd, e1] at e0
    simp at e0
  · have e1 : data[p + 3]? = some 81 := by
      have h := matchAt_getElem hp 3 (by decide)
      simpa [kseqTag] using h
    rw [hd, e1] at e0
    simp at e0

theorem tagPositionsAux_sound (data tag : List Nat) (skip : Nat) :
    ∀ fuel start p, p ∈ tagPositionsAux data tag skip fuel start →
      start ≤ p ∧ (data.drop p).take tag.length = tag := by
  intro fuel
  induction fuel with
  | zero => intro start p h; simp [tagPositionsAux] at h
  | succ n ih =>
    intro start p h
    rw [tagPositionsAux] at h
    cases hf : findTagFrom data tag start with
    | none => rw [hf] at h; simp at h
    | some r =>
      rw [hf] at h
      obtain ⟨h1, h2, _⟩ := findTagFrom_some hf
      rcases List.mem_cons.1 h with rfl | hm
      · exact ⟨h1, h2⟩
      · obtain ⟨hh1, hh2⟩ := ih _ _ hm
        exact ⟨by omega, hh2⟩

theorem tagPositionsAux_chain (data tag : List Nat) (skip : Nat) (hskip : 1 ≤ skip) :
    ∀ fuel start, List.Chain' (· < ·) (tagPositionsAux data tag skip fuel start) := by
  intro fuel
  induction fuel with
  | zero => intro start; simp [tagPositionsAux]
  | succ n ih =>
    intro start
    rw [tagPositionsAux]
    cases hf : findTagFrom data tag start with
    | none => simp
    | some r =>
      rw [List.chain'_cons']
      refine ⟨?_, ih _⟩
      intro b hb
      have hmem := List.mem_of_mem_head? hb
      have := (tagPositionsAux_sound data tag skip n (r + skip) b hmem).1
      omega

theorem kseqPositionsAux_complete (data : List Nat) :
    ∀ fuel start, data.length + 1 ≤ fuel + start → start ≤ data.length →
      ∀ q, start ≤ q → (data.drop q).take kseqTag.length = kseqTag →
        q ∈ tagPositionsAux data kseqTag 4 fuel start := by
  intro fuel
  induction fuel with
  | zero =>
    intro start hf hs q hq hmatch
    have hlen := matchAt_le_length hmatch (by decide)
    have h4 : kseqTag.length = 4 := by decide
    omega
  | succ n ih =>
    intro start hf hs q hq hmatch
    rw [tagPositionsAux]
    cases hfind : findTagFrom data kseqTag start with
    | none => exact absurd hmatch (findTagFrom_none (by decide) hs hfind q hq)
    | some r =>
      obtain ⟨hr1, hr2, hr3⟩ := findTagFrom_some hfind
      have hrlen := matchAt_le_length hr2 (by decide)
      have h4 : kseqTag.length = 4 := by decide
      rcases lt_trichotomy q r with hlt | rfl | hgt
      · exact absurd hmatch (hr3 q hq hlt)
      · exact List.mem_cons_self _ _
      · have hq4 : r + 4 ≤ q := by
          by_contra hcon
          exact kseq_spacing hr2 hmatch hgt (by omega)
        refine List.mem_cons_of_mem _ (ih (r + 4) (by omega) (by omega) q hq4 hmatch)

theorem sectionsFrom_zip :
    ∀ (ps : List Nat) (n : Nat),
      sectionsFrom ps n =
        (ps.zip (ps.drop 1 ++ [n])).map (fun pq => (pq.1, pq.2 - pq.1))
  | [], _ => rfl
  | [_], _ => rfl
  | p :: q :: rest, n => by
    have ih := sectionsFrom_zip (q :: rest) n
    simp only [sectionsFrom, List.drop_one, List.tail_cons, List.cons_append,
      List.zip_cons_cons, List.map_cons] at ih ⊢
    rw [ih]

/-- C7: the Container Structure Scanner records exactly the occurrences
of the 4-byte tag `KSEQ` (they can never overlap, so these are all the
non-overlapping occurrences), in strictly ascending order; each block's
extent is `[thisOffset, nextOffset)` with the final block extending to
end-of-buffer; a buffer with zero occurrences yields an empty block list;
and on an `ELPK`-tagged buffer the analysis succeeds (no error) whatever
the occurrence count. -/
theorem C7_kseq_scanner (data : List Nat) :
    (∀ p ∈ kseqPositions data, (data.drop p).take 4 = kseqTag) ∧
    (∀ q, (data.drop q).take 4 = kseqTag → q ∈ kseqPositions data) ∧
    List.Chain' (· < ·) (kseqPositions data) ∧
    kseqSections data =
      ((kseqPositions data).zip ((kseqPositions data).drop 1 ++ [data.length])).map
        (fun pq => (pq.1, pq.2 - pq.1)) ∧
    (kseqPositions data = [] → kseqSections data = []) ∧
    (data.take 4 = elpkTag → (analyze_elpk_structure data).isSome = true) := by
  have h4 : kseqTag.length = 4 := by decide
  refine ⟨?_, ?_, ?_, ?_, ?_, ?_⟩
  · intro p hp
    have := (tagPositionsAux_sound data kseqTag 4 (data.length + 1) 0 p hp).2
    rwa [h4] at this
  · intro q hq
    exact kseqPositionsAux_complete data (data.length + 1) 0 (by omega) (by omega) q
      (Nat.zero_le _) (by rwa [h4])
  · exact tagPositionsAux_chain data kseqTag 4 (by omega) (data.length + 1) 0
  · exact sectionsFrom_zip (kseqPositions data) data.length
  · intro h
    simp [kseqSections, h, sectionsFrom]
  · intro h
    simp [analyze_elpk_structure, h]

/-- Witness for C7 at a small `ELPK` container with one `KSEQ` block. -/
theorem C7_kseq_scanner_witness :
    8 ∈ kseqPositions buf7 ∧ (analyze_elpk_structure buf7).isSome = true :=
  ⟨(C7_kseq_scanner buf7).2.1 8 (by decide),
   (C7_kseq_scanner buf7).2.2.2.2.2 (by decide)⟩

end Kurohyou
